import Mathlib

/-!
Verification of the holdings-aggregation core of the `tradeoff` repository
(`src/lib/snaptrade.ts`): the equity-symbol filter `isEquitySymbol`, the
per-ticker consolidation routine `aggregateHoldings`, and the partial-failure
policy of the multi-account orchestrator `getAllHoldings`.

Numbers that the JavaScript code manipulates are modelled as rationals, except
where a division can leave the finite range: there the IEEE-style values
produced by JavaScript division (`Infinity`, `-Infinity`, `NaN`) are modelled
explicitly by the type `JSNum` (the sign of zero is not tracked). Optional
fields (`number | undefined` in TypeScript) are modelled with `Option`. The
insertion-ordered `Map` used by the aggregator is modelled as a list of
holdings in insertion order, updated in place.
-/

/-- A JavaScript number as it can appear in the aggregator's average-price
field: a finite rational, one of the two infinities, or `NaN`. -/
inductive JSNum where
  | num (q : ℚ)
  | posInf
  | negInf
  | nan
deriving DecidableEq

/-- JavaScript truthiness of a number: `0` and `NaN` are falsy, everything
else (including the infinities) is truthy. -/
def JSNum.truthy : JSNum → Bool
  | .num q => decide (q ≠ 0)
  | .posInf => true
  | .negInf => true
  | .nan => false

/-- JavaScript addition lifted to `JSNum` (sign of zero ignored). -/
def JSNum.add : JSNum → JSNum → JSNum
  | .nan, _ => .nan
  | _, .nan => .nan
  | .num a, .num b => .num (a + b)
  | .num _, .posInf => .posInf
  | .num _, .negInf => .negInf
  | .posInf, .num _ => .posInf
  | .negInf, .num _ => .negInf
  | .posInf, .posInf => .posInf
  | .negInf, .negInf => .negInf
  | .posInf, .negInf => .nan
  | .negInf, .posInf => .nan

/-- JavaScript multiplication lifted to `JSNum` (sign of zero ignored). -/
def JSNum.mul : JSNum → JSNum → JSNum
  | .nan, _ => .nan
  | _, .nan => .nan
  | .num a, .num b => .num (a * b)
  | .num a, .posInf => if 0 < a then .posInf else if a < 0 then .negInf else .nan
  | .num a, .negInf => if 0 < a then .negInf else if a < 0 then .posInf else .nan
  | .posInf, .num b => if 0 < b then .posInf else if b < 0 then .negInf else .nan
  | .negInf, .num b => if 0 < b then .negInf else if b < 0 then .posInf else .nan
  | .posInf, .posInf => .posInf
  | .posInf, .negInf => .negInf
  | .negInf, .posInf => .negInf
  | .negInf, .negInf => .posInf

/-- JavaScript division lifted to `JSNum`: division by zero yields a signed
infinity, `0/0` yields `NaN` (sign of zero ignored, so `b ≥ 0` stands for
division by `+0` when `b = 0`). -/
def JSNum.div : JSNum → JSNum → JSNum
  | .nan, _ => .nan
  | _, .nan => .nan
  | .num a, .num b =>
      if b ≠ 0 then .num (a / b)
      else if 0 < a then .posInf else if a < 0 then .negInf else .nan
  | .num _, .posInf => .num 0
  | .num _, .negInf => .num 0
  | .posInf, .num b => if 0 ≤ b then .posInf else .negInf
  | .negInf, .num b => if 0 ≤ b then .negInf else .posInf
  | .posInf, .posInf => .nan
  | .posInf, .negInf => .nan
  | .negInf, .posInf => .nan
  | .negInf, .negInf => .nan

/-- Truthiness of an optional number: `undefined` is falsy. -/
def truthyOpt : Option JSNum → Bool
  | none => false
  | some v => v.truthy

/-- The JavaScript expression `a || b` on optional numbers: the first operand
when it is truthy, otherwise the second operand as-is. -/
def jsOr (a b : Option JSNum) : Option JSNum :=
  if truthyOpt a then a else b

/-- One brokerage position as fed to `aggregateHoldings` (the mapped shape
produced by `getAccountHoldings`): ticker symbol, unit count (possibly
fractional), market value, currency, and optional average purchase price. -/
structure SnapTradePosition where
  symbol : String
  units : ℚ
  marketValue : ℚ
  currency : String
  averagePurchasePrice : Option ℚ
deriving DecidableEq

/-- One consolidated per-ticker holding as built by `aggregateHoldings`. -/
structure PortfolioHolding where
  ticker : String
  shares : ℚ
  currentValue : ℚ
  averagePrice : Option JSNum
  currency : String
deriving DecidableEq

/-- `optionPatAt cs` holds when the regex `\d{6}[CP]\d+` matches at the start
of `cs`: six digits, then `C` or `P`, then at least one digit. -/
def optionPatAt : List Char → Bool
  | a :: b :: c :: d :: e :: f :: g :: h :: _ =>
      a.isDigit && b.isDigit && c.isDigit && d.isDigit && e.isDigit && f.isDigit &&
        (g == 'C' || g == 'P') && h.isDigit
  | _ => false

/-- `containsOptionPat cs` holds when the regex `\d{6}[CP]\d+` matches
somewhere in `cs` (the unanchored `RegExp.test` of the source). -/
def containsOptionPat : List Char → Bool
  | [] => false
  | c :: rest => optionPatAt (c :: rest) || containsOptionPat rest

/-- The equity filter of `src/lib/snaptrade.ts` (`isEquitySymbol`): reject
option-coded symbols, symbols containing a space, and symbols longer than five
characters without a period; accept everything else. -/
def isEquitySymbol (symbol : String) : Bool :=
  if containsOptionPat symbol.data then false
  else if symbol.data.contains ' ' then false
  else if 5 < symbol.length && !(symbol.data.contains '.') then false
  else true

/-- The holding inserted for a ticker not yet present in the map (the `else`
branch of the loop in `aggregateHoldings`). -/
def seedHolding (pos : SnapTradePosition) : PortfolioHolding :=
  { ticker := pos.symbol
    shares := pos.units
    currentValue := pos.marketValue
    averagePrice := pos.averagePurchasePrice.map JSNum.num
    currency := pos.currency }

/-- The merge of an incoming position into the existing holding for its ticker
(the `if (existing)` branch of the loop in `aggregateHoldings`):
`totalUnits = existing.shares + pos.units`,
`totalValue = (existing.currentValue || 0) + pos.marketValue`, and the
weighted average price guarded by the truthiness of both average prices. -/
def mergeHolding (existing : PortfolioHolding) (pos : SnapTradePosition) : PortfolioHolding :=
  let totalUnits := existing.shares + pos.units
  let totalValue := existing.currentValue + pos.marketValue
  let paJS : Option JSNum := pos.averagePurchasePrice.map JSNum.num
  let weightedAvgPrice : Option JSNum :=
    match existing.averagePrice, paJS with
    | some ea, some pa =>
        if ea.truthy && pa.truthy then
          some (JSNum.div
            (JSNum.add (JSNum.mul (JSNum.num existing.shares) ea)
                       (JSNum.mul (JSNum.num pos.units) pa))
            (JSNum.num totalUnits))
        else jsOr existing.averagePrice paJS
    | _, _ => jsOr existing.averagePrice paJS
  { existing with
      shares := totalUnits
      currentValue := totalValue
      averagePrice := weightedAvgPrice }

/-- One iteration of the `for (const pos of positions)` loop of
`aggregateHoldings` over the insertion-ordered map, modelled as a list. -/
def mergeStep (m : List PortfolioHolding) (pos : SnapTradePosition) : List PortfolioHolding :=
  if isEquitySymbol pos.symbol then
    match m.find? (fun h => h.ticker == pos.symbol) with
    | some existing =>
        m.map (fun x => if x.ticker == pos.symbol then mergeHolding existing pos else x)
    | none => m ++ [seedHolding pos]
  else m

/-- `aggregateHoldings` of `src/lib/snaptrade.ts`: fold the merge step over
the input positions, starting from the empty map, and return the holdings in
insertion order. -/
def aggregateHoldings (positions : List SnapTradePosition) : List PortfolioHolding :=
  positions.foldl mergeStep []

/-- A brokerage account (only the identifier matters to the model). -/
structure SnapTradeAccount where
  id : String
deriving DecidableEq

/-- `getAllHoldings` of `src/lib/snaptrade.ts`, with the per-account fetch
passed in explicitly: each account's positions are fetched, a fetch that
throws is caught and replaced by the empty list, the per-account lists are
flattened in account order, and the result is consolidated. -/
def getAllHoldingsModel (accounts : List SnapTradeAccount)
    (fetchAcct : SnapTradeAccount → Except String (List SnapTradePosition)) :
    List PortfolioHolding :=
  aggregateHoldings
    ((accounts.map (fun a =>
      match fetchAcct a with
      | .ok positions => positions
      | .error _ => [])).flatten)

/-- Sum of a holding field over the output entries carrying a given ticker. -/
def tickerSum (f : PortfolioHolding → ℚ) (hs : List PortfolioHolding) (t : String) : ℚ :=
  ((hs.filter (fun h => h.ticker == t)).map f).sum

/-- Sum of a position field over the input positions that carry a given ticker
and pass the equity filter. -/
def inputSum (g : SnapTradePosition → ℚ) (ps : List SnapTradePosition) (t : String) : ℚ :=
  ((ps.filter (fun p => p.symbol == t && isEquitySymbol p.symbol)).map g).sum

/-- The map invariant: the tickers of the accumulated holdings are distinct. -/
def tickersNodup (hs : List PortfolioHolding) : Prop :=
  (hs.map PortfolioHolding.ticker).Nodup

/-- Spec-side reading of the options-contract encoding: somewhere in the
symbol there are six digits, then `C` or `P`, then at least one more digit. -/
def OptionCoded (cs : List Char) : Prop :=
  ∃ l a b c d e f g h r,
    cs = l ++ a :: b :: c :: d :: e :: f :: g :: h :: r ∧
    (a.isDigit && b.isDigit && c.isDigit && d.isDigit && e.isDigit && f.isDigit) = true ∧
    (g = 'C' ∨ g = 'P') ∧ h.isDigit = true

/-! ### Basic lemmas about `tickerSum`, `inputSum` and the map invariant -/

theorem tickerSum_nil (f : PortfolioHolding → ℚ) (t : String) : tickerSum f [] t = 0 := rfl

theorem tickerSum_cons (f : PortfolioHolding → ℚ) (h : PortfolioHolding)
    (hs : List PortfolioHolding) (t : String) :
    tickerSum f (h :: hs) t = (if h.ticker == t then f h else 0) + tickerSum f hs t := by
  by_cases hc : (h.ticker == t) = true
  · simp [tickerSum, List.filter_cons, hc]
  · simp [tickerSum, List.filter_cons, hc]

theorem tickerSum_append (f : PortfolioHolding → ℚ) (hs hs' : List PortfolioHolding)
    (t : String) :
    tickerSum f (hs ++ hs') t = tickerSum f hs t + tickerSum f hs' t := by
  simp [tickerSum, List.filter_append]

theorem inputSum_nil (g : SnapTradePosition → ℚ) (t : String) : inputSum g [] t = 0 := rfl

theorem inputSum_cons (g : SnapTradePosition → ℚ) (p : SnapTradePosition)
    (ps : List SnapTradePosition) (t : String) :
    inputSum g (p :: ps) t
      = (if p.symbol == t && isEquitySymbol p.symbol then g p else 0) + inputSum g ps t := by
  by_cases hc : (p.symbol == t && isEquitySymbol p.symbol) = true
  · simp [inputSum, List.filter_cons, hc]
  · simp [inputSum, List.filter_cons, hc]

theorem map_update_no_match (hs : List PortfolioHolding) (s : String)
    (newH : PortfolioHolding) (h : ∀ x ∈ hs, (x.ticker == s) = false) :
    hs.map (fun x => if x.ticker == s then newH else x) = hs := by
  induction hs with
  | nil => rfl
  | cons a l ih =>
      simp only [List.map_cons]
      rw [if_neg (by simp [h a (List.mem_cons_self a l)]),
        ih (fun x hx => h x (List.mem_cons_of_mem a hx))]

theorem tickerSum_map_update (f : PortfolioHolding → ℚ) (s : String)
    (newH : PortfolioHolding) :
    ∀ (hs : List PortfolioHolding) (e : PortfolioHolding), tickersNodup hs →
      hs.find? (fun h => h.ticker == s) = some e → ∀ t : String,
      tickerSum f (hs.map (fun x => if x.ticker == s then newH else x)) t
        = tickerSum f hs t
            + ((if newH.ticker == t then f newH else 0) - (if e.ticker == t then f e else 0)) := by
  intro hs
  induction hs with
  | nil => intro e _ hfind; simp at hfind
  | cons a l ih =>
      intro e hnd hfind t
      obtain ⟨hph, hpl⟩ : (∀ x ∈ l, ¬x.ticker = a.ticker)
          ∧ (List.map PortfolioHolding.ticker l).Nodup := by
        simpa [tickersNodup, List.nodup_cons] using hnd
      by_cases hc : (a.ticker == s) = true
      · rw [List.find?_cons_of_pos l hc] at hfind
        obtain rfl : a = e := by injection hfind
        have hticker : a.ticker = s := by simpa using hc
        have hnotin : ∀ x ∈ l, (x.ticker == s) = false := by
          intro x hx
          exact beq_eq_false_iff_ne.mpr (by rw [← hticker]; exact hph x hx)
        simp only [List.map_cons, if_pos hc, map_update_no_match l s newH hnotin]
        rw [tickerSum_cons, tickerSum_cons]
        ring
      · rw [List.find?_cons_of_neg l hc] at hfind
        simp only [List.map_cons, if_neg hc]
        rw [tickerSum_cons, tickerSum_cons, ih e hpl hfind t]
        ring

theorem tickersNodup_nil : tickersNodup [] := List.nodup_nil

theorem tickersNodup_mergeStep (m : List PortfolioHolding) (p : SnapTradePosition)
    (hnd : tickersNodup m) : tickersNodup (mergeStep m p) := by
  unfold mergeStep
  by_cases heq : isEquitySymbol p.symbol = true
  · rw [if_pos heq]
    cases hfind : m.find? (fun h => h.ticker == p.symbol) with
    | some existing =>
        have hts : existing.ticker = p.symbol := by
          simpa using List.find?_some hfind
        have hmap :
            (m.map (fun x => if x.ticker == p.symbol then mergeHolding existing p else x)).map
                PortfolioHolding.ticker
              = m.map PortfolioHolding.ticker := by
          rw [List.map_map]
          refine List.map_congr_left ?_
          intro x _
          show (if (x.ticker == p.symbol) = true then mergeHolding existing p else x).ticker
            = x.ticker
          by_cases hx : (x.ticker == p.symbol) = true
          · rw [if_pos hx]
            have hxe : x.ticker = p.symbol := by simpa using hx
            show existing.ticker = x.ticker
            rw [hts, hxe]
          · rw [if_neg hx]
        unfold tickersNodup
        rw [hmap]
        exact hnd
    | none =>
        have hnotin : p.symbol ∉ m.map PortfolioHolding.ticker := by
          intro hmem
          obtain ⟨x, hx, hxe⟩ := List.mem_map.mp hmem
          exact (List.find?_eq_none.mp hfind x hx) (by simp [hxe])
        unfold tickersNodup
        rw [List.map_append]
        refine List.nodup_append.mpr ⟨hnd, ?_, ?_⟩
        · simp [seedHolding]
        · intro x hx hx'
          have : x = p.symbol := by
            simpa [seedHolding] using hx'
          exact hnotin (this ▸ hx)
  · rw [if_neg heq]
    exact hnd

theorem tickerSum_mergeStep (f : PortfolioHolding → ℚ) (g : SnapTradePosition → ℚ)
    (hseed : ∀ q, f (seedHolding q) = g q)
    (hmerge : ∀ e q, f (mergeHolding e q) = f e + g q)
    (m : List PortfolioHolding) (p : SnapTradePosition) (hnd : tickersNodup m) (t : String) :
    tickerSum f (mergeStep m p) t
      = tickerSum f m t + (if p.symbol == t && isEquitySymbol p.symbol then g p else 0) := by
  unfold mergeStep
  by_cases heq : isEquitySymbol p.symbol = true
  · rw [if_pos heq]
    cases hfind : m.find? (fun h => h.ticker == p.symbol) with
    | some existing =>
        have hts : existing.ticker = p.symbol := by
          simpa using List.find?_some hfind
        rw [tickerSum_map_update f p.symbol (mergeHolding existing p) m existing hnd hfind t,
          hmerge existing p,
          show (mergeHolding existing p).ticker = p.symbol from hts, hts, heq]
        simp only [Bool.and_true]
        split_ifs <;> ring
    | none =>
        rw [tickerSum_append, tickerSum_cons, tickerSum_nil, hseed p,
          show (seedHolding p).ticker = p.symbol from rfl, heq]
        simp only [Bool.and_true]
        split_ifs <;> ring
  · rw [if_neg heq]
    have : isEquitySymbol p.symbol = false := by simpa using heq
    simp [this]

theorem tickersNodup_foldl (ps : List SnapTradePosition) :
    ∀ m : List PortfolioHolding, tickersNodup m → tickersNodup (List.foldl mergeStep m ps) := by
  induction ps with
  | nil => intro m hm; exact hm
  | cons p ps ih =>
      intro m hm
      rw [List.foldl_cons]
      exact ih (mergeStep m p) (tickersNodup_mergeStep m p hm)

theorem tickerSum_foldl (f : PortfolioHolding → ℚ) (g : SnapTradePosition → ℚ)
    (hseed : ∀ q, f (seedHolding q) = g q)
    (hmerge : ∀ e q, f (mergeHolding e q) = f e + g q)
    (ps : List SnapTradePosition) :
    ∀ m : List PortfolioHolding, tickersNodup m → ∀ t : String,
      tickerSum f (List.foldl mergeStep m ps) t = tickerSum f m t + inputSum g ps t := by
  induction ps with
  | nil => intro m _ t; simp [inputSum_nil]
  | cons p ps ih =>
      intro m hm t
      rw [List.foldl_cons, ih (mergeStep m p) (tickersNodup_mergeStep m p hm) t,
        tickerSum_mergeStep f g hseed hmerge m p hm t, inputSum_cons]
      ring

/-! ### Characterisation of the option-symbol pattern -/

theorem optionPatAt_iff (cs : List Char) :
    optionPatAt cs = true ↔
      ∃ a b c d e f g h r, cs = a :: b :: c :: d :: e :: f :: g :: h :: r ∧
        (a.isDigit && b.isDigit && c.isDigit && d.isDigit && e.isDigit && f.isDigit) = true ∧
        (g = 'C' ∨ g = 'P') ∧ h.isDigit = true := by
  rcases cs with _ | ⟨a, _ | ⟨b, _ | ⟨c, _ | ⟨d, _ | ⟨e, _ | ⟨f, _ | ⟨g, _ | ⟨h, r⟩⟩⟩⟩⟩⟩⟩⟩
  · simp [optionPatAt]
  · simp [optionPatAt]
  · simp [optionPatAt]
  · simp [optionPatAt]
  · simp [optionPatAt]
  · simp [optionPatAt]
  · simp [optionPatAt]
  · simp [optionPatAt]
  · simp only [optionPatAt, Bool.and_eq_true, Bool.or_eq_true, beq_iff_eq]
    constructor
    · rintro ⟨⟨⟨⟨⟨⟨⟨ha, hb⟩, hc⟩, hd⟩, he⟩, hf⟩, hcp⟩, hh⟩
      exact ⟨a, b, c, d, e, f, g, h, r, rfl, ⟨⟨⟨⟨⟨ha, hb⟩, hc⟩, hd⟩, he⟩, hf⟩, hcp, hh⟩
    · rintro ⟨a', b', c', d', e', f', g', h', r', heq, ⟨⟨⟨⟨⟨ha, hb⟩, hc⟩, hd⟩, he⟩, hf⟩, hcp, hh⟩
      obtain ⟨rfl, rfl, rfl, rfl, rfl, rfl, rfl, rfl, rfl⟩ :
          a = a' ∧ b = b' ∧ c = c' ∧ d = d' ∧ e = e' ∧ f = f' ∧ g = g' ∧ h = h' ∧ r = r' := by
        simpa using heq
      exact ⟨⟨⟨⟨⟨⟨⟨ha, hb⟩, hc⟩, hd⟩, he⟩, hf⟩, hcp⟩, hh⟩

theorem containsOptionPat_iff (cs : List Char) :
    containsOptionPat cs = true ↔ OptionCoded cs := by
  induction cs with
  | nil =>
      constructor
      · intro hfalse
        simp [containsOptionPat] at hfalse
      · rintro ⟨l, a, b, c, d, e, f, g, h, r, heq, -⟩
        cases l <;> simp at heq
  | cons x xs ih =>
      simp only [containsOptionPat, Bool.or_eq_true, ih]
      constructor
      · rintro (hpat | hoc)
        · obtain ⟨a, b, c, d, e, f, g, h, r, heq, hd6, hcp, hh⟩ := (optionPatAt_iff _).mp hpat
          exact ⟨[], a, b, c, d, e, f, g, h, r, by simpa using heq, hd6, hcp, hh⟩
        · obtain ⟨l, a, b, c, d, e, f, g, h, r, heq, hd6, hcp, hh⟩ := hoc
          exact ⟨x :: l, a, b, c, d, e, f, g, h, r, by simp [heq], hd6, hcp, hh⟩
      · rintro ⟨l, a, b, c, d, e, f, g, h, r, heq, hd6, hcp, hh⟩
        cases l with
        | nil =>
            exact Or.inl ((optionPatAt_iff _).mpr
              ⟨a, b, c, d, e, f, g, h, r, by simpa using heq, hd6, hcp, hh⟩)
        | cons y l' =>
            obtain ⟨-, hxs⟩ : x = y ∧ xs = l' ++ a :: b :: c :: d :: e :: f :: g :: h :: r := by
              simpa using heq
            exact Or.inr ⟨l', a, b, c, d, e, f, g, h, r, hxs, hd6, hcp, hh⟩

/-! ### Aggregate sums -/

theorem inputSum_append (g : SnapTradePosition → ℚ) (ps ps' : List SnapTradePosition)
    (t : String) : inputSum g (ps ++ ps') t = inputSum g ps t + inputSum g ps' t := by
  simp [inputSum, List.filter_append]

theorem inputSum_perm (g : SnapTradePosition → ℚ) (ps ps' : List SnapTradePosition)
    (hperm : ps.Perm ps') (t : String) : inputSum g ps t = inputSum g ps' t :=
  List.Perm.sum_eq (List.Perm.map g (List.Perm.filter _ hperm))

theorem tickerSum_shares_aggregate (ps : List SnapTradePosition) (t : String) :
    tickerSum PortfolioHolding.shares (aggregateHoldings ps) t
      = inputSum SnapTradePosition.units ps t := by
  have h := tickerSum_foldl PortfolioHolding.shares SnapTradePosition.units
    (fun _ => rfl) (fun _ _ => rfl) ps [] tickersNodup_nil t
  simpa [aggregateHoldings, tickerSum_nil] using h

theorem tickerSum_value_aggregate (ps : List SnapTradePosition) (t : String) :
    tickerSum PortfolioHolding.currentValue (aggregateHoldings ps) t
      = inputSum SnapTradePosition.marketValue ps t := by
  have h := tickerSum_foldl PortfolioHolding.currentValue SnapTradePosition.marketValue
    (fun _ => rfl) (fun _ _ => rfl) ps [] tickersNodup_nil t
  simpa [aggregateHoldings, tickerSum_nil] using h

/-! ### Claim theorems -/

/-- C1: for every input batch and every ticker, the consolidated share count
reported by `aggregateHoldings` for that ticker equals the sum of the unit
counts of exactly those input positions that carry the ticker and pass the
equity filter; filtered-out positions contribute nothing. -/
theorem aggregateHoldings_shares_eq_inputSum (ps : List SnapTradePosition) (t : String) :
    tickerSum PortfolioHolding.shares (aggregateHoldings ps) t
      = inputSum SnapTradePosition.units ps t :=
  tickerSum_shares_aggregate ps t

/-- C9: each ticker appears at most once in the consolidated output of
`aggregateHoldings`. -/
theorem aggregateHoldings_ticker_nodup (ps : List SnapTradePosition) :
    ((aggregateHoldings ps).map PortfolioHolding.ticker).Nodup :=
  tickersNodup_foldl ps [] tickersNodup_nil

/-- C4 counterexample: permuting the input batch can change the consolidated
average purchase price when some average prices are unknown — the two lists
below are permutations of each other, yet `aggregateHoldings` reports average
price `400/3` on one order and `150` on the other. -/
theorem aggregateHoldings_perm_avgPrice_cex :
    ([(⟨"AAPL", 10, 0, "USD", some 100⟩ : SnapTradePosition),
        ⟨"AAPL", 10, 0, "USD", none⟩, ⟨"AAPL", 10, 0, "USD", some 200⟩].Perm
      [⟨"AAPL", 10, 0, "USD", some 100⟩, ⟨"AAPL", 10, 0, "USD", some 200⟩,
        ⟨"AAPL", 10, 0, "USD", none⟩])
    ∧ (aggregateHoldings [⟨"AAPL", 10, 0, "USD", some 100⟩, ⟨"AAPL", 10, 0, "USD", none⟩,
          ⟨"AAPL", 10, 0, "USD", some 200⟩]).map PortfolioHolding.averagePrice
      ≠ (aggregateHoldings [⟨"AAPL", 10, 0, "USD", some 100⟩, ⟨"AAPL", 10, 0, "USD", some 200⟩,
          ⟨"AAPL", 10, 0, "USD", none⟩]).map PortfolioHolding.averagePrice := by
  constructor
  · exact List.Perm.cons _ (List.Perm.swap _ _ _)
  · have h1 : (aggregateHoldings [(⟨"AAPL", 10, 0, "USD", some 100⟩ : SnapTradePosition),
        ⟨"AAPL", 10, 0, "USD", none⟩, ⟨"AAPL", 10, 0, "USD", some 200⟩]).map
          PortfolioHolding.averagePrice = [some (JSNum.num (400/3))] := by
      simp +decide [aggregateHoldings, mergeStep, mergeHolding, seedHolding, jsOr, truthyOpt,
        JSNum.truthy, JSNum.add, JSNum.mul, JSNum.div, isEquitySymbol]
      norm_num
    have h2 : (aggregateHoldings [(⟨"AAPL", 10, 0, "USD", some 100⟩ : SnapTradePosition),
        ⟨"AAPL", 10, 0, "USD", some 200⟩, ⟨"AAPL", 10, 0, "USD", none⟩]).map
          PortfolioHolding.averagePrice = [some (JSNum.num 150)] := by
      simp +decide [aggregateHoldings, mergeStep, mergeHolding, seedHolding, jsOr, truthyOpt,
        JSNum.truthy, JSNum.add, JSNum.mul, JSNum.div, isEquitySymbol]
      norm_num
    rw [h1, h2]
    simp only [ne_eq, List.cons.injEq, Option.some.injEq, JSNum.num.injEq, and_true, not_and]
    intro hq
    norm_num at hq

/-- C4 (amended): permuting the input batch leaves, for every ticker, the
consolidated share total and total current value of `aggregateHoldings`
unchanged; the average purchase price is not in general order-independent. -/
theorem aggregateHoldings_perm_shares_value (ps ps' : List SnapTradePosition)
    (hperm : ps.Perm ps') (t : String) :
    tickerSum PortfolioHolding.shares (aggregateHoldings ps) t
        = tickerSum PortfolioHolding.shares (aggregateHoldings ps') t
      ∧ tickerSum PortfolioHolding.currentValue (aggregateHoldings ps) t
        = tickerSum PortfolioHolding.currentValue (aggregateHoldings ps') t := by
  constructor
  · rw [tickerSum_shares_aggregate, tickerSum_shares_aggregate]
    exact inputSum_perm _ ps ps' hperm t
  · rw [tickerSum_value_aggregate, tickerSum_value_aggregate]
    exact inputSum_perm _ ps ps' hperm t

/-- C4 witness: the permutation invariance of shares and value at a concrete
two-position batch. -/
theorem aggregateHoldings_perm_shares_value_witness :
    ([(⟨"MSFT", 10, 1000, "USD", some 100⟩ : SnapTradePosition),
        ⟨"MSFT", 5, 500, "USD", none⟩].Perm
      [⟨"MSFT", 5, 500, "USD", none⟩, ⟨"MSFT", 10, 1000, "USD", some 100⟩])
    ∧ tickerSum PortfolioHolding.shares
          (aggregateHoldings [⟨"MSFT", 10, 1000, "USD", some 100⟩,
            ⟨"MSFT", 5, 500, "USD", none⟩]) "MSFT"
        = tickerSum PortfolioHolding.shares
          (aggregateHoldings [⟨"MSFT", 5, 500, "USD", none⟩,
            ⟨"MSFT", 10, 1000, "USD", some 100⟩]) "MSFT"
    ∧ tickerSum PortfolioHolding.currentValue
          (aggregateHoldings [⟨"MSFT", 10, 1000, "USD", some 100⟩,
            ⟨"MSFT", 5, 500, "USD", none⟩]) "MSFT"
        = tickerSum PortfolioHolding.currentValue
          (aggregateHoldings [⟨"MSFT", 5, 500, "USD", none⟩,
            ⟨"MSFT", 10, 1000, "USD", some 100⟩]) "MSFT" := by
  have hperm : [(⟨"MSFT", 10, 1000, "USD", some 100⟩ : SnapTradePosition),
      ⟨"MSFT", 5, 500, "USD", none⟩].Perm
      [⟨"MSFT", 5, 500, "USD", none⟩, ⟨"MSFT", 10, 1000, "USD", some 100⟩] :=
    List.Perm.swap _ _ _
  have h := aggregateHoldings_perm_shares_value _ _ hperm "MSFT"
  exact ⟨hperm, h.1, h.2⟩

/-- C2 counterexample: an average purchase price of `0` is a known (defined)
value, yet the merge does not combine it by the shares-weighted formula —
merging 10 shares at average `0` with 10 shares at average `200` yields `200`
(the incoming value), not the weighted `(10·0 + 10·200)/20 = 100`. -/
theorem mergeHolding_known_zero_avg_cex :
    (aggregateHoldings [⟨"MSFT", 10, 0, "USD", some 0⟩,
        ⟨"MSFT", 10, 0, "USD", some 200⟩]).map PortfolioHolding.averagePrice
      = [some (JSNum.num 200)]
    ∧ (10 * (0 : ℚ) + 10 * 200) / (10 + 10) = 100
    ∧ JSNum.num 200 ≠ JSNum.num 100 := by
  refine ⟨?_, by norm_num, by simp⟩
  simp +decide [aggregateHoldings, mergeStep, mergeHolding, seedHolding, jsOr, truthyOpt,
    JSNum.truthy, JSNum.add, JSNum.mul, JSNum.div, isEquitySymbol]

/-- C2 (amended): in a merge, the new shares are `existing + incoming`; the
new average purchase price is the shares-weighted average
`(existing_shares·existing_avg + incoming_units·incoming_avg) / total` when
both averages are known and nonzero (and the total is nonzero); when only the
existing average is known-and-nonzero it is kept; when the existing average is
zero or unknown the incoming value is taken as-is (so the result is unknown
only when both are zero-or-unknown — a zero average is treated as unknown). -/
theorem mergeHolding_avgPrice_spec (e : PortfolioHolding) (p : SnapTradePosition) :
    (mergeHolding e p).shares = e.shares + p.units
    ∧ (∀ a b : ℚ, e.averagePrice = some (JSNum.num a) → a ≠ 0 →
        p.averagePurchasePrice = some b → b ≠ 0 → e.shares + p.units ≠ 0 →
        (mergeHolding e p).averagePrice
          = some (JSNum.num ((e.shares * a + p.units * b) / (e.shares + p.units))))
    ∧ (truthyOpt e.averagePrice = true →
        truthyOpt (p.averagePurchasePrice.map JSNum.num) = false →
        (mergeHolding e p).averagePrice = e.averagePrice)
    ∧ (truthyOpt e.averagePrice = false →
        (mergeHolding e p).averagePrice = p.averagePurchasePrice.map JSNum.num) := by
  refine ⟨rfl, ?_, ?_, ?_⟩
  · intro a b hea hza hpb hzb hzt
    simp [mergeHolding, hea, hpb, JSNum.truthy, hza, hzb, JSNum.mul, JSNum.add, JSNum.div, hzt]
  · intro htr hfa
    cases hea : e.averagePrice with
    | none => simp [truthyOpt, hea] at htr
    | some ea =>
        have htr' : ea.truthy = true := by simpa [truthyOpt, hea] using htr
        cases hpb : p.averagePurchasePrice with
        | none => simp [mergeHolding, hea, hpb, jsOr, truthyOpt, htr']
        | some b =>
            have hb : (JSNum.num b).truthy = false := by
              simpa [truthyOpt, hpb] using hfa
            simp [mergeHolding, hea, hpb, hb, jsOr, truthyOpt, htr']
  · intro hfa
    cases hea : e.averagePrice with
    | none =>
        cases hpb : p.averagePurchasePrice with
        | none => simp [mergeHolding, hea, hpb, jsOr, truthyOpt]
        | some b => simp [mergeHolding, hea, hpb, jsOr, truthyOpt]
    | some ea =>
        have hea' : ea.truthy = false := by simpa [truthyOpt, hea] using hfa
        cases hpb : p.averagePurchasePrice with
        | none => simp [mergeHolding, hea, hpb, jsOr, truthyOpt, hea']
        | some b => simp [mergeHolding, hea, hpb, jsOr, truthyOpt, hea']

/-- C2 witness: merging two 10-share MSFT positions with average purchase
prices 100 and 200 yields 20 shares at average price 150. -/
theorem mergeHolding_avgPrice_spec_witness :
    (mergeHolding (seedHolding ⟨"MSFT", 10, 1000, "USD", some 100⟩)
        ⟨"MSFT", 10, 2000, "USD", some 200⟩).shares = 20
    ∧ (mergeHolding (seedHolding ⟨"MSFT", 10, 1000, "USD", some 100⟩)
        ⟨"MSFT", 10, 2000, "USD", some 200⟩).averagePrice = some (JSNum.num 150) := by
  have h := mergeHolding_avgPrice_spec (seedHolding ⟨"MSFT", 10, 1000, "USD", some 100⟩)
    ⟨"MSFT", 10, 2000, "USD", some 200⟩
  constructor
  · rw [h.1]
    norm_num [seedHolding]
  · rw [h.2.1 100 200 rfl (by norm_num) rfl (by norm_num) (by norm_num [seedHolding])]
    norm_num [seedHolding]

/-- C3: the weighted-average division is not special-cased on a zero combined
share total — merging two zero-unit positions whose average prices are both
known makes the code evaluate `0/0`, storing `NaN` as the average price
instead of retaining the existing average `100`. -/
theorem aggregateHoldings_zero_total_nan :
    (aggregateHoldings [⟨"AAPL", 0, 0, "USD", some 100⟩,
        ⟨"AAPL", 0, 0, "USD", some 200⟩]).map PortfolioHolding.averagePrice
      = [some JSNum.nan]
    ∧ some JSNum.nan ≠ some (JSNum.num 100) := by
  refine ⟨?_, by simp⟩
  simp +decide [aggregateHoldings, mergeStep, mergeHolding, seedHolding, jsOr, truthyOpt,
    JSNum.truthy, JSNum.add, JSNum.mul, JSNum.div, isEquitySymbol]

theorem contains_iff_mem_char (l : List Char) (a : Char) : l.contains a = true ↔ a ∈ l :=
  List.elem_iff

/-- C5: the equity filter rejects a symbol exactly when it contains the
six-digits-then-`C`/`P`-then-digit option encoding, contains a space, or is
longer than five characters without containing a period; concretely `"AAPL"`
and `"BRK.B"` are accepted while the option code `"AAPL 210917C00150000"` and
the seven-character period-free `"ABCDEFG"` are rejected. -/
theorem isEquitySymbol_spec :
    (∀ s : String, isEquitySymbol s = false ↔
        (OptionCoded s.data ∨ ' ' ∈ s.data ∨ (5 < s.length ∧ '.' ∉ s.data)))
    ∧ isEquitySymbol "AAPL" = true
    ∧ isEquitySymbol "AAPL 210917C00150000" = false
    ∧ isEquitySymbol "BRK.B" = true
    ∧ isEquitySymbol "ABCDEFG" = false := by
  refine ⟨?_, by decide, by decide, by decide, by decide⟩
  intro s
  unfold isEquitySymbol
  by_cases h1 : containsOptionPat s.data = true
  · rw [if_pos h1]
    exact iff_of_true rfl (Or.inl ((containsOptionPat_iff _).mp h1))
  · rw [if_neg h1]
    by_cases h2 : s.data.contains ' ' = true
    · rw [if_pos h2]
      exact iff_of_true rfl (Or.inr (Or.inl ((contains_iff_mem_char _ _).mp h2)))
    · rw [if_neg h2]
      by_cases h3 : (5 < s.length && !(s.data.contains '.')) = true
      · rw [if_pos h3]
        have h3' := h3
        rw [Bool.and_eq_true] at h3'
        obtain ⟨hlen, hdot⟩ := h3'
        refine iff_of_true rfl (Or.inr (Or.inr ⟨of_decide_eq_true hlen, fun hmem => ?_⟩))
        have hcf : s.data.contains '.' = false := by simpa using hdot
        rw [(contains_iff_mem_char _ _).mpr hmem] at hcf
        simp at hcf
      · rw [if_neg h3]
        refine iff_of_false (by simp) ?_
        rintro (hopt | hsp | ⟨hlen, hdot⟩)
        · exact h1 ((containsOptionPat_iff _).mpr hopt)
        · exact h2 ((contains_iff_mem_char _ _).mpr hsp)
        · refine h3 ?_
          rw [Bool.and_eq_true]
          refine ⟨decide_eq_true hlen, ?_⟩
          have hcf : s.data.contains '.' = false := by
            cases hcc : s.data.contains '.'
            · rfl
            · exact absurd ((contains_iff_mem_char _ _).mp hcc) hdot
          rw [hcf]
          rfl

/-- C6: the aggregator is a total function and accepts zero- or negative-unit
positions without validation — appending such a position (passing the equity
filter) to any batch changes that ticker's consolidated share count by exactly
its (non-positive) unit count. -/
theorem aggregateHoldings_total_nonpositive (ps : List SnapTradePosition)
    (p : SnapTradePosition) (hequity : isEquitySymbol p.symbol = true)
    (_hunits : p.units ≤ 0) :
    tickerSum PortfolioHolding.shares (aggregateHoldings (ps ++ [p])) p.symbol
      = tickerSum PortfolioHolding.shares (aggregateHoldings ps) p.symbol + p.units := by
  rw [tickerSum_shares_aggregate, tickerSum_shares_aggregate, inputSum_append]
  rw [inputSum_cons, inputSum_nil]
  simp [hequity]

/-- C6 witness: a negative five-unit position is absorbed as-is. -/
theorem aggregateHoldings_total_nonpositive_witness :
    isEquitySymbol "XYZ" = true ∧ ((-5 : ℚ) ≤ 0)
    ∧ tickerSum PortfolioHolding.shares
          (aggregateHoldings ([] ++ [⟨"XYZ", -5, 0, "USD", none⟩])) "XYZ"
        = tickerSum PortfolioHolding.shares (aggregateHoldings []) "XYZ" + (-5) :=
  ⟨by decide, by norm_num,
    aggregateHoldings_total_nonpositive [] ⟨"XYZ", -5, 0, "USD", none⟩ (by decide) (by norm_num)⟩

/-- C7 counterexample: merging a zero-unit position does not always leave the
average purchase price unchanged — when the existing holding's average is
unknown, the zero-unit position's known average is adopted. -/
theorem mergeHolding_zero_units_cex :
    (aggregateHoldings [⟨"AAPL", 10, 1000, "USD", none⟩,
        ⟨"AAPL", 0, 0, "USD", some 100⟩]).map PortfolioHolding.averagePrice
      = [some (JSNum.num 100)]
    ∧ (aggregateHoldings [⟨"AAPL", 10, 1000, "USD", none⟩]).map
        PortfolioHolding.averagePrice = [none]
    ∧ some (JSNum.num 100) ≠ (none : Option JSNum) := by
  refine ⟨?_, ?_, by simp⟩ <;>
    simp +decide [aggregateHoldings, mergeStep, mergeHolding, seedHolding, jsOr, truthyOpt,
      JSNum.truthy, JSNum.add, JSNum.mul, JSNum.div, isEquitySymbol]

/-- C7 (amended): merging a position with zero units and zero market value
(the shape the fetch layer produces, `marketValue = units × price`) leaves the
holding's shares and current value unchanged, and leaves the average purchase
price unchanged provided the existing average is a known nonzero finite value
and the existing share count is nonzero; no exception or division error
occurs in any case. -/
theorem mergeHolding_zero_units (e : PortfolioHolding) (p : SnapTradePosition)
    (hu : p.units = 0) (hmv : p.marketValue = 0) :
    (mergeHolding e p).shares = e.shares
    ∧ (mergeHolding e p).currentValue = e.currentValue
    ∧ (∀ a : ℚ, e.averagePrice = some (JSNum.num a) → a ≠ 0 → e.shares ≠ 0 →
        (mergeHolding e p).averagePrice = e.averagePrice) := by
  refine ⟨?_, ?_, ?_⟩
  · show e.shares + p.units = e.shares
    rw [hu, add_zero]
  · show e.currentValue + p.marketValue = e.currentValue
    rw [hmv, add_zero]
  · intro a hea ha0 hs0
    cases hpb : p.averagePurchasePrice with
    | none => simp [mergeHolding, hea, hpb, jsOr, truthyOpt, JSNum.truthy, ha0]
    | some b =>
        by_cases hb0 : b = 0
        · simp [mergeHolding, hea, hpb, jsOr, truthyOpt, JSNum.truthy, ha0, hb0]
        · have hzt : e.shares + p.units ≠ 0 := by rw [hu, add_zero]; exact hs0
          have hw : (mergeHolding e p).averagePrice
              = some (JSNum.num ((e.shares * a + p.units * b) / (e.shares + p.units))) := by
            simp [mergeHolding, hea, hpb, JSNum.truthy, ha0, hb0, JSNum.mul, JSNum.add,
              JSNum.div, hzt]
          rw [hw, hea, hu, zero_mul, add_zero, add_zero, mul_comm, mul_div_assoc,
            div_self hs0, mul_one]

/-- C7 witness: a concrete zero-unit merge that leaves shares, value and
average price of the existing holding unchanged. -/
theorem mergeHolding_zero_units_witness :
    (mergeHolding (seedHolding ⟨"AAPL", 10, 1000, "USD", some 100⟩)
        ⟨"AAPL", 0, 0, "USD", some 50⟩).shares
        = (seedHolding ⟨"AAPL", 10, 1000, "USD", some 100⟩).shares
    ∧ (mergeHolding (seedHolding ⟨"AAPL", 10, 1000, "USD", some 100⟩)
        ⟨"AAPL", 0, 0, "USD", some 50⟩).currentValue
        = (seedHolding ⟨"AAPL", 10, 1000, "USD", some 100⟩).currentValue
    ∧ (mergeHolding (seedHolding ⟨"AAPL", 10, 1000, "USD", some 100⟩)
        ⟨"AAPL", 0, 0, "USD", some 50⟩).averagePrice
        = (seedHolding ⟨"AAPL", 10, 1000, "USD", some 100⟩).averagePrice := by
  have h := mergeHolding_zero_units (seedHolding ⟨"AAPL", 10, 1000, "USD", some 100⟩)
    ⟨"AAPL", 0, 0, "USD", some 50⟩ rfl rfl
  exact ⟨h.1, h.2.1, h.2.2 100 rfl (by norm_num) (by norm_num [seedHolding])⟩

/-- C8: if the per-account fetch fails for one account, that account
contributes an empty position list — the orchestrator still returns, and its
consolidated output is exactly the one obtained from the remaining accounts. -/
theorem getAllHoldings_partial_failure (A C : List SnapTradeAccount) (b : SnapTradeAccount)
    (fetchAcct : SnapTradeAccount → Except String (List SnapTradePosition)) (msg : String)
    (hb : fetchAcct b = .error msg) :
    getAllHoldingsModel (A ++ b :: C) fetchAcct = getAllHoldingsModel (A ++ C) fetchAcct := by
  unfold getAllHoldingsModel
  rw [List.map_append, List.map_append, List.map_cons, hb]
  simp

/-- C8 witness: account `B`'s fetch throws, account `A`'s succeeds; the
consolidated output equals the one computed from account `A` alone. -/
theorem getAllHoldings_partial_failure_witness :
    ((fun a : SnapTradeAccount =>
        if a.id == "B" then (Except.error "boom" : Except String (List SnapTradePosition))
        else Except.ok [⟨"AAPL", 10, 1000, "USD", some 100⟩]) ⟨"B"⟩
      = Except.error "boom")
    ∧ getAllHoldingsModel ([⟨"A"⟩] ++ ⟨"B"⟩ :: []) (fun a =>
        if a.id == "B" then (Except.error "boom" : Except String (List SnapTradePosition))
        else Except.ok [⟨"AAPL", 10, 1000, "USD", some 100⟩])
      = getAllHoldingsModel ([⟨"A"⟩] ++ []) (fun a =>
        if a.id == "B" then (Except.error "boom" : Except String (List SnapTradePosition))
        else Except.ok [⟨"AAPL", 10, 1000, "USD", some 100⟩]) :=
  ⟨rfl, getAllHoldings_partial_failure [⟨"A"⟩] [] ⟨"B"⟩ _ "boom" rfl⟩

/-- C10: the both-known test of the merge is a truthiness check, so an average
purchase price equal to 0 is treated as unknown: with existing average 0 and a
known nonzero incoming average the incoming value is taken (not the weighted
average), and symmetrically an incoming average of 0 leaves a known nonzero
existing average unchanged. -/
theorem mergeHolding_zero_avg_truthiness (e : PortfolioHolding) (p : SnapTradePosition) :
    (∀ b : ℚ, e.averagePrice = some (JSNum.num 0) → p.averagePurchasePrice = some b →
        b ≠ 0 → (mergeHolding e p).averagePrice = some (JSNum.num b))
    ∧ (∀ a : ℚ, p.averagePurchasePrice = some 0 → e.averagePrice = some (JSNum.num a) →
        a ≠ 0 → (mergeHolding e p).averagePrice = some (JSNum.num a)) := by
  constructor
  · intro b hea hpb hb0
    simp [mergeHolding, hea, hpb, JSNum.truthy, jsOr, truthyOpt]
  · intro a hpa hea ha0
    simp [mergeHolding, hea, hpa, JSNum.truthy, jsOr, truthyOpt, ha0]

/-- C10 witness: existing average 0 with incoming 200 gives 200; incoming
average 0 with existing 150 keeps 150. -/
theorem mergeHolding_zero_avg_truthiness_witness :
    (mergeHolding ⟨"AAPL", 10, 1000, some (JSNum.num 0), "USD"⟩
      ⟨"AAPL", 10, 1000, "USD", some 200⟩).averagePrice = some (JSNum.num 200)
    ∧ (mergeHolding ⟨"AAPL", 10, 1000, some (JSNum.num 150), "USD"⟩
      ⟨"AAPL", 10, 1000, "USD", some 0⟩).averagePrice = some (JSNum.num 150) :=
  ⟨(mergeHolding_zero_avg_truthiness _ _).1 200 rfl rfl (by norm_num),
    (mergeHolding_zero_avg_truthiness _ _).2 150 rfl rfl (by norm_num)⟩
